import Mathlib

/-!
Shallow embedding of the set-reconciliation core of
`internal/services/postgres/postgresql_flexible_server_firewall_rules_resource.go`
(the `azurerm_postgresql_flexible_server_firewall_rules` resource).

Modelling notes:

* Azure resource-ID strings such as
  `/subscriptions/<sub>/resourceGroups/<rg>/providers/Microsoft.DBforPostgreSQL/flexibleServers/<srv>/firewallRules/<name>`
  are manipulated by the Go code only by formatting (`ID()`) and by splitting on
  `/` (`ParseFirewallRuleID`, `ParseFirewallRuleIDInsensitively`).  A segment of
  such a string can never itself contain `/`, and the parsers reject empty user
  segments, so formatting and splitting are mutually inverse on the strings that
  actually occur.  We therefore model an ID string directly by its list of
  `/`-separated segments (`List String`); the parsers additionally require each
  user-value segment to be `/`-free, which encodes that the segment list is
  realizable as a split of an actual string.
* Go `nil`-able pointers (`*string`) become `Option`; `pointer.From` (zero value
  of a dereferenced nil) becomes `Option.getD default`.
* A Go `map[string]T` becomes an association list with insert-or-replace;
  Go's iteration order over a map is unspecified, so any enumeration order is a
  faithful model.
* The per-phase bounded executor (goroutines + `sync.WaitGroup` + unbuffered
  `errs` channel + buffered `semaphore` channel + a closer goroutine) is given a
  small-step operational semantics driven by an explicit scheduler, defined
  further below.
* `locks.ByName` / `locks.UnlockByName` and the SDK metadata plumbing are elided:
  no claim below depends on them beyond what is noted in the doc comments.
-/

namespace AzureRM

/-- Errors produced by the modelled code paths (`error` values in Go).
`nilPointerDeref` marks the Go run-time panic from dereferencing the nil
pointer returned by a failed `ParseFirewallRuleID` whose error is discarded. -/
inductive GoErr where
  | parseServerIDErr (input : List String)
  | listErr (msg : String)
  | importAsExists (resourceType : String) (id : List String)
  | remoteOpFailed (msg : String)
  | nilPointerDeref
deriving DecidableEq, Repr

/-- `type Rule struct` (source lines 26-30). -/
structure Rule where
  name : String
  startIPAddress : String
  endIPAddress : String
deriving DecidableEq, Repr

/-- `FlexibleServerFirewallRulesModel` (source lines 32-35).  `ServerID` is an
ID string, modelled as its segment list. -/
structure FlexibleServerFirewallRulesModel where
  serverID : List String
  rule : List Rule
deriving DecidableEq, Repr

/-- SDK `firewallrules.FirewallRuleProperties`. -/
structure FirewallRuleProperties where
  startIPAddress : String
  endIPAddress : String
deriving DecidableEq, Repr

/-- SDK `firewallrules.FirewallRule` (`Id *string`, `Name *string`,
`Properties FirewallRuleProperties`). -/
structure FirewallRule where
  id : Option (List String)
  name : Option String
  properties : FirewallRuleProperties
deriving DecidableEq, Repr

/-- SDK `firewallrules.FlexibleServerId`. -/
structure FlexibleServerId where
  subscriptionId : String
  resourceGroupName : String
  flexibleServerName : String
deriving DecidableEq, Repr

/-- SDK `firewallrules.FirewallRuleId`. -/
structure FirewallRuleId where
  subscriptionId : String
  resourceGroupName : String
  flexibleServerName : String
  firewallRuleName : String
deriving DecidableEq, Repr

/-- `firewallrules.NewFirewallRuleID`. -/
def NewFirewallRuleID (subscriptionId resourceGroupName flexibleServerName firewallRuleName : String) : FirewallRuleId :=
  ⟨subscriptionId, resourceGroupName, flexibleServerName, firewallRuleName⟩

/-- `FirewallRuleId.ID()`: the formatted ID string, as its segment list
(the leading `""` is the segment before the first `/`). -/
def FirewallRuleId.ID (x : FirewallRuleId) : List String :=
  ["", "subscriptions", x.subscriptionId, "resourceGroups", x.resourceGroupName,
   "providers", "Microsoft.DBforPostgreSQL", "flexibleServers", x.flexibleServerName,
   "firewallRules", x.firewallRuleName]

/-- `FlexibleServerId.ID()`, as a segment list. -/
def FlexibleServerId.ID (x : FlexibleServerId) : List String :=
  ["", "subscriptions", x.subscriptionId, "resourceGroups", x.resourceGroupName,
   "providers", "Microsoft.DBforPostgreSQL", "flexibleServers", x.flexibleServerName]

/-- A user-supplied segment of a resource-ID string: non-empty (the SDK parser
rejects empty values) and `/`-free (a split segment cannot contain the
separator). -/
def validSeg (s : String) : Bool :=
  !(s = "") && !(s.data.any (fun c => decide (c = '/')))

/-- ASCII case-folding of a segment (Go's case-insensitive segment match);
written over the character list so that it evaluates inside the kernel. -/
def toLowerStr (s : String) : String :=
  ⟨s.data.map Char.toLower⟩

/-- `firewallrules.ParseFirewallRuleID`: case-sensitive match of the static
segments, non-empty user values. -/
def parseFirewallRuleID (segs : List String) : Option FirewallRuleId :=
  match segs with
  | ["", "subscriptions", sub, "resourceGroups", rg, "providers",
     "Microsoft.DBforPostgreSQL", "flexibleServers", srv, "firewallRules", name] =>
    if validSeg sub && validSeg rg && validSeg srv && validSeg name then
      some ⟨sub, rg, srv, name⟩
    else none
  | _ => none

/-- `firewallrules.ParseFirewallRuleIDInsensitively`: static segments matched
case-insensitively; the parsed value keeps the user-supplied casing, and
re-serializing via `FirewallRuleId.ID` restores the canonical static segments. -/
def parseFirewallRuleIDInsensitively (segs : List String) : Option FirewallRuleId :=
  match segs with
  | [e, s1, sub, s2, rg, s3, s4, s5, srv, s6, name] =>
    if e = "" && toLowerStr s1 = "subscriptions" && toLowerStr s2 = "resourcegroups"
        && toLowerStr s3 = "providers" && toLowerStr s4 = "microsoft.dbforpostgresql"
        && toLowerStr s5 = "flexibleservers" && toLowerStr s6 = "firewallrules"
        && validSeg sub && validSeg rg && validSeg srv && validSeg name then
      some ⟨sub, rg, srv, name⟩
    else none
  | _ => none

/-- `firewallrules.ParseFlexibleServerID` (case-sensitive). -/
def parseFlexibleServerID (segs : List String) : Option FlexibleServerId :=
  match segs with
  | ["", "subscriptions", sub, "resourceGroups", rg, "providers",
     "Microsoft.DBforPostgreSQL", "flexibleServers", srv] =>
    if validSeg sub && validSeg rg && validSeg srv then
      some ⟨sub, rg, srv⟩
    else none
  | _ => none

/-- `pointer.From`: dereference an optional value, yielding the Go zero value
(`default`) when the pointer is nil. -/
def pointerFrom {α : Type} [Inhabited α] (x : Option α) : α :=
  x.getD default

/-- Go map assignment `m[k] = v` on an association list: drop any existing
binding of `k`, add the new one. -/
def mapInsert (m : List (List String × FirewallRule)) (k : List String)
    (v : FirewallRule) : List (List String × FirewallRule) :=
  m.filter (fun p => !decide (p.1 = k)) ++ [(k, v)]

/-- Go map lookup `m[k]`. -/
def mapLookup (m : List (List String × FirewallRule)) (k : List String) :
    Option FirewallRule :=
  (m.find? (fun p => decide (p.1 = k))).map Prod.snd

/-- The `firewallrules.FirewallRule` value built from a desired `Rule`
(source lines 127-132 / 237-242: only `Properties` is populated). -/
def fwRuleOfRule (rule : Rule) : FirewallRule :=
  { id := none, name := none,
    properties := { startIPAddress := rule.startIPAddress,
                    endIPAddress := rule.endIPAddress } }

/-- The RuleID computed by `Create` (source line 133):
`NewFirewallRuleID(id.SubscriptionId, id.ResourceGroupName, id.FlexibleServerName, rule.Name)`
with `id` the parsed `model.ServerID`. -/
def createFirewallRuleID (id : FlexibleServerId) (name : String) : FirewallRuleId :=
  NewFirewallRuleID id.subscriptionId id.resourceGroupName id.flexibleServerName name

/-- The RuleID computed by `Update` (source line 243):
`NewFirewallRuleID(subscriptionId, id.ResourceGroupName, id.FlexibleServerName, rule.Name)`
where `subscriptionId` is `metadata.Client.Account.SubscriptionId`, not the
subscription of the parsed server ID. -/
def updateFirewallRuleID (subscriptionId : String) (id : FlexibleServerId)
    (name : String) : FirewallRuleId :=
  NewFirewallRuleID subscriptionId id.resourceGroupName id.flexibleServerName name

/-- One iteration of the desired-map building loop (source lines 126-135 /
236-245): `firewallRules[fwRuleId.ID()] = fwRule`. -/
def buildStep (mkId : String → FirewallRuleId)
    (m : List (List String × FirewallRule)) (rule : Rule) :
    List (List String × FirewallRule) :=
  mapInsert m (mkId rule.name).ID (fwRuleOfRule rule)

/-- The desired-rules map `firewallRules` (source lines 125-135 / 234-245):
keyed by the formatted RuleID string, valued by the built `FirewallRule`.
`mkId` is the per-call-site RuleID constructor. -/
def buildFirewallRulesMap (mkId : String → FirewallRuleId) (rules : List Rule) :
    List (List String × FirewallRule) :=
  rules.foldl (buildStep mkId) []

/-- One iteration of the deletion-candidate loop (source lines 250-256): parse
the remote rule's `Id` case-insensitively (a parse failure is silently
skipped); keep it for deletion when its re-serialized ID is not a key of the
desired map. -/
def rulesToDeleteStep (firewallRules : List (List String × FirewallRule))
    (acc : List FirewallRuleId) (v : FirewallRule) : List FirewallRuleId :=
  match parseFirewallRuleIDInsensitively (pointerFrom v.id) with
  | some cId => if (mapLookup firewallRules cId.ID).isSome then acc else acc ++ [cId]
  | none => acc

/-- `rulesToDelete` (source lines 247-256). -/
def rulesToDelete (firewallRules : List (List String × FirewallRule))
    (currentFirewallRules : List FirewallRule) : List FirewallRuleId :=
  currentFirewallRules.foldl (rulesToDeleteStep firewallRules) []

/-- A remote rule as Azure would return it for parent `(sub, rg, srv)`: its
`Id` is the canonical firewall-rule ID string for its name. -/
def mkRemoteRule (sub rg srv : String) (p : String × FirewallRuleProperties) :
    FirewallRule :=
  { id := some (NewFirewallRuleID sub rg srv p.1).ID, name := some p.1,
    properties := p.2 }

/-- Stated from the spec's words (section 4.1, for comparison with
`rulesToDelete`): the names of the current rules whose name does not occur
among the names of the desired set. -/
def specToDeleteNames (desired : List Rule) (current : List FirewallRule) :
    List String :=
  (current.map (fun r => pointerFrom r.name)).filter
    (fun nm => !((desired.map Rule.name).contains nm))

/-- `r.ResourceType()` (source line 87). -/
def resourceTypeName : String := "azurerm_postgresql_flexible_server_firewall_rules"

/-- Top-level keys of the schema returned by `Arguments()` (source lines 44-80). -/
def schemaTopLevelKeys : List String := ["server_id", "rule"]

/-- `metadata.ResourceData.HasChange(key)`: true when a change is recorded for
`key`.  The plugin SDK records changes only for keys declared in the schema, so
callers constrain the changed-key list to `schemaTopLevelKeys`. -/
def hasChange (changedKeys : List String) (key : String) : Bool :=
  changedKeys.contains key

/-- `const maxConcurrency = 100` (source line 24). -/
def maxConcurrency : Nat := 100

/-!
Small-step model of one executor phase (source lines 137-159, 259-300, 327-350
together with `batchCreateOrUpdate` / `batchDelete`, lines 357-369).

A phase dispatches one goroutine per work item.  Goroutine `i` executes
`defer wg.Done(); semaphore <- struct{}{}; errs <- op(i); <-semaphore`:
it acquires a permit from the buffered `semaphore` channel (capacity
`maxConcurrency`), performs its remote operation (outcome `outcomes[i]`),
sends the outcome on the unbuffered `errs` channel (a rendezvous with the
collecting loop), releases its permit and finishes (running its deferred
`wg.Done()`).  A closer goroutine runs `wg.Wait(); close(errs)`.  The main
goroutine runs `for chanErr := range errs { if chanErr != nil { return chanErr } }`
followed by `wg.Wait()`.

Goroutine stages and the main loop's program counter: -/
inductive Stage where
  | waitPermit
  | running
  | sendReady
  | releasing
  | done
deriving DecidableEq, Repr

/-- Program counter of the collecting (main) goroutine: still in the
`for range errs` loop, or returned from the phase with `nil`
(loop exited after `close(errs)`) or with the first received error. -/
inductive MainPC where
  | collecting
  | returned (res : Option GoErr)
deriving DecidableEq, Repr

/-- One scheduler choice: let goroutine `i` take its next step, let the closer
close `errs` (enabled once all goroutines are done), or let the main loop
observe the closed channel and exit. -/
inductive ExecAction where
  | acquire (i : Nat)
  | finishOp (i : Nat)
  | send (i : Nat)
  | release (i : Nat)
  | closeCh
  | recvClosed
deriving DecidableEq, Repr

structure ExecState where
  stages : List Stage
  sem : Nat
  closed : Bool
  main : MainPC
  collected : Nat
deriving DecidableEq, Repr

def execInit (n : Nat) : ExecState :=
  { stages := List.replicate n .waitPermit, sem := 0, closed := false,
    main := .collecting, collected := 0 }

/-- One interleaving step.  A disabled action is a no-op (the scheduler may
only pick enabled steps; picking a disabled one changes nothing).
`semaphore <- struct{}{}` blocks while `sem = maxConcurrency`;
`errs <- r` blocks until the main loop is ready to receive (and blocks forever
once the main loop has returned); `close(errs)` happens only after `wg.Wait()`,
i.e. after every goroutine has run its deferred `wg.Done()`. -/
def execStep (outcomes : List (Option GoErr)) (s : ExecState) (a : ExecAction) :
    ExecState :=
  match a with
  | .acquire i =>
    if s.stages[i]? = some .waitPermit ∧ s.sem < maxConcurrency then
      { s with stages := s.stages.set i .running, sem := s.sem + 1 }
    else s
  | .finishOp i =>
    if s.stages[i]? = some .running then
      { s with stages := s.stages.set i .sendReady }
    else s
  | .send i =>
    if s.stages[i]? = some .sendReady ∧ s.main = .collecting then
      { s with stages := s.stages.set i .releasing,
               collected := s.collected + 1,
               main := match outcomes.getD i none with
                       | some e => .returned (some e)
                       | none => .collecting }
    else s
  | .release i =>
    if s.stages[i]? = some .releasing then
      { s with stages := s.stages.set i .done, sem := s.sem - 1 }
    else s
  | .closeCh =>
    if s.stages.all (fun st => decide (st = .done)) ∧ s.closed = false then
      { s with closed := true }
    else s
  | .recvClosed =>
    if s.closed = true ∧ s.main = .collecting then
      { s with main := .returned none }
    else s

/-- Run a phase under an explicit schedule, starting from the freshly
dispatched state (`outcomes.length` goroutines). -/
def execRun (outcomes : List (Option GoErr)) (sched : List ExecAction) : ExecState :=
  sched.foldl (execStep outcomes) (execInit outcomes.length)

/-- A goroutine in these stages holds a concurrency permit. -/
def permitHeld : Stage → Bool
  | .running | .sendReady | .releasing => true
  | _ => false

/-- A goroutine in these stages has had its result received by the main loop. -/
def resultReceived : Stage → Bool
  | .releasing | .done => true
  | _ => false

/-- Number of single-item remote operations currently in flight (goroutines
executing their `CreateOrUpdateThenPoll` / `DeleteThenPoll` call). -/
def inFlight (s : ExecState) : Nat :=
  s.stages.countP (fun st => decide (st = .running))

/-- Result of a lifecycle call: `returned r` models `return r` (with
`none` for `return nil`); `running` models an execution whose schedule has not
yet brought the call to a return point. -/
inductive CallResult where
  | running
  | returned (err : Option GoErr)
deriving DecidableEq, Repr

def mainToCallResult : MainPC → CallResult
  | .collecting => .running
  | .returned r => .returned r

/-- Observable outcome of one `Create` invocation: the returned value and the
work items handed to `batchCreateOrUpdate` goroutines (source line 144).  Each
dispatched pair carries the `ParseFirewallRuleID` result of its map key, whose
error is discarded (`fid, _ := ...`, line 143); `none` marks the nil pointer
that line 144 would dereference. -/
structure CreateOutput where
  result : CallResult
  dispatched : List (Option FirewallRuleId × FirewallRule)
deriving DecidableEq, Repr

/-- `Create().Func` (source lines 101-164).  `listResult` is the outcome of
`rulesClient.ListByServerComplete`; `opRes` gives the outcome of each
`CreateOrUpdateThenPoll` call; `sched` drives the executor phase.
Decoding is assumed successful (a decode error returns before anything else
happens) and locking is elided. -/
def createRun (model : FlexibleServerFirewallRulesModel)
    (listResult : Except GoErr (List FirewallRule))
    (opRes : FirewallRuleId → FirewallRule → Option GoErr)
    (sched : List ExecAction) : CreateOutput :=
  match parseFlexibleServerID model.serverID with
  | none => { result := .returned (some (.parseServerIDErr model.serverID)), dispatched := [] }
  | some id =>
    match listResult with
    | .error e => { result := .returned (some e), dispatched := [] }
    | .ok items =>
      if items.length ≠ 0 then
        { result := .returned (some (.importAsExists resourceTypeName id.ID)),
          dispatched := [] }
      else
        let fwMap := buildFirewallRulesMap (createFirewallRuleID id) model.rule
        let disp := fwMap.map (fun p => (parseFirewallRuleID p.1, p.2))
        let outcomes := disp.map (fun p =>
          match p.1 with
          | some fid => opRes fid p.2
          | none => some .nilPointerDeref)
        { result := mainToCallResult (execRun outcomes sched).main, dispatched := disp }

/-- Observable outcome of one `Update` invocation. -/
structure UpdateOutput where
  result : CallResult
  deleteDispatched : List FirewallRuleId
  upsertDispatched : List (Option FirewallRuleId × FirewallRule)
  upsertStarted : Bool
  deleteFinal : ExecState
deriving DecidableEq, Repr

/-- `Update().Func` (source lines 210-304).  `accountSub` is
`metadata.Client.Account.SubscriptionId`; `changedKeys` are the schema keys for
which `ResourceData` records a change; `deleteRes` / `upsertRes` give the
outcomes of `DeleteThenPoll` / `CreateOrUpdateThenPoll`; `dSched` / `uSched`
drive the two executor phases.  The upsert phase is dispatched only from the
arm in which the delete phase's collecting loop has exited without an error. -/
def updateRun (accountSub : String) (model : FlexibleServerFirewallRulesModel)
    (changedKeys : List String)
    (listResult : Except GoErr (List FirewallRule))
    (deleteRes : FirewallRuleId → Option GoErr)
    (upsertRes : FirewallRuleId → FirewallRule → Option GoErr)
    (dSched uSched : List ExecAction) : UpdateOutput :=
  match parseFlexibleServerID model.serverID with
  | none =>
    { result := .returned (some (.parseServerIDErr model.serverID)),
      deleteDispatched := [], upsertDispatched := [], upsertStarted := false,
      deleteFinal := execInit 0 }
  | some id =>
    if hasChange changedKeys "firewall_rule" then
      match listResult with
      | .error e =>
        { result := .returned (some e), deleteDispatched := [],
          upsertDispatched := [], upsertStarted := false, deleteFinal := execInit 0 }
      | .ok currentFirewallRules =>
        let fwMap := buildFirewallRulesMap (updateFirewallRuleID accountSub id) model.rule
        let toDelete := rulesToDelete fwMap currentFirewallRules
        let dOutcomes := toDelete.map deleteRes
        let dFinal := execRun dOutcomes dSched
        match dFinal.main with
        | .collecting =>
          { result := .running, deleteDispatched := toDelete,
            upsertDispatched := [], upsertStarted := false, deleteFinal := dFinal }
        | .returned (some e) =>
          { result := .returned (some e), deleteDispatched := toDelete,
            upsertDispatched := [], upsertStarted := false, deleteFinal := dFinal }
        | .returned none =>
          let disp := fwMap.map (fun p => (parseFirewallRuleID p.1, p.2))
          let uOutcomes := disp.map (fun p =>
            match p.1 with
            | some fid => upsertRes fid p.2
            | none => some .nilPointerDeref)
          { result := mainToCallResult (execRun uOutcomes uSched).main,
            deleteDispatched := toDelete, upsertDispatched := disp,
            upsertStarted := true, deleteFinal := dFinal }
    else
      { result := .returned none, deleteDispatched := [], upsertDispatched := [],
        upsertStarted := false, deleteFinal := execInit 0 }

/-- The schedule in which goroutines `0, …, k-1` each acquire a permit and
start their remote operation. -/
def acquireSched (k : Nat) : List ExecAction :=
  (List.range k).map ExecAction.acquire

/-!  Helper lemmas: association-list maps, ID round-trips, diff structure.  -/

theorem find?_filter_other (k k' : List String) (h : ¬ k' = k)
    (t : List (List String × FirewallRule)) :
    List.find? (fun p => decide (p.1 = k')) (t.filter (fun p => !decide (p.1 = k)))
      = List.find? (fun p => decide (p.1 = k')) t := by
  have h3 : ¬ (k = k') := fun hh => h hh.symm
  induction t with
  | nil => rfl
  | cons p t ih =>
    by_cases h1 : p.1 = k
    · have h2 : ¬ (p.1 = k') := by rw [h1]; exact h3
      simp [List.filter_cons, List.find?_cons, h1, h2, h3, ih]
    · by_cases h2 : p.1 = k'
      · simp [List.filter_cons, List.find?_cons, h1, h2, h, ih]
      · simp [List.filter_cons, List.find?_cons, h1, h2, h, ih]

theorem find?_filter_self (k : List String)
    (t : List (List String × FirewallRule)) :
    List.find? (fun p => decide (p.1 = k)) (t.filter (fun p => !decide (p.1 = k)))
      = none := by
  induction t with
  | nil => rfl
  | cons p t ih =>
    by_cases h1 : p.1 = k <;> simp [List.filter_cons, List.find?_cons, h1, ih]

theorem mapLookup_mapInsert (m : List (List String × FirewallRule))
    (k : List String) (v : FirewallRule) (k' : List String) :
    mapLookup (mapInsert m k v) k' = if k' = k then some v else mapLookup m k' := by
  unfold mapInsert mapLookup
  rw [List.find?_append]
  by_cases h : k' = k
  · subst h
    rw [find?_filter_self]
    simp [List.find?_cons]
  · rw [find?_filter_other k k' h]
    have hnone : List.find? (fun p => decide (p.1 = k')) [(k, v)] = none := by
      have : ¬ ((k, v).1 = k') := fun hh => h hh.symm
      simp [List.find?_cons, this]
    rw [hnone, Option.or_none]
    simp [h]

theorem mapLookup_foldl_build (mkId : String → FirewallRuleId) (rules : List Rule) :
    ∀ (m : List (List String × FirewallRule)) (k : List String),
    (mapLookup (rules.foldl (buildStep mkId) m) k).isSome = true ↔
      ((mapLookup m k).isSome = true ∨ k ∈ rules.map (fun r => (mkId r.name).ID)) := by
  induction rules with
  | nil => simp
  | cons r t ih =>
    intro m k
    simp only [List.foldl_cons, List.map_cons, List.mem_cons]
    rw [ih]
    unfold buildStep
    rw [mapLookup_mapInsert]
    by_cases h : k = (mkId r.name).ID <;> simp [h]

theorem mapLookup_build_isSome (mkId : String → FirewallRuleId) (rules : List Rule)
    (k : List String) :
    (mapLookup (buildFirewallRulesMap mkId rules) k).isSome = true ↔
      k ∈ rules.map (fun r => (mkId r.name).ID) := by
  unfold buildFirewallRulesMap
  rw [mapLookup_foldl_build]
  simp [mapLookup]

theorem canonicalID_inj (sub rg srv n1 n2 : String) :
    (NewFirewallRuleID sub rg srv n1).ID = (NewFirewallRuleID sub rg srv n2).ID ↔
      n1 = n2 := by
  simp [NewFirewallRuleID, FirewallRuleId.ID]

theorem parseFirewallRuleID_canonical (sub rg srv nm : String)
    (hs : validSeg sub = true) (hr : validSeg rg = true)
    (hv : validSeg srv = true) (hn : validSeg nm = true) :
    parseFirewallRuleID (NewFirewallRuleID sub rg srv nm).ID =
      some (NewFirewallRuleID sub rg srv nm) := by
  simp [parseFirewallRuleID, NewFirewallRuleID, FirewallRuleId.ID, hs, hr, hv, hn]

theorem parseInsensitively_canonical (sub rg srv nm : String)
    (hs : validSeg sub = true) (hr : validSeg rg = true)
    (hv : validSeg srv = true) (hn : validSeg nm = true) :
    parseFirewallRuleIDInsensitively (NewFirewallRuleID sub rg srv nm).ID =
      some (NewFirewallRuleID sub rg srv nm) := by
  have h1 : toLowerStr "subscriptions" = "subscriptions" := by decide
  have h2 : toLowerStr "resourceGroups" = "resourcegroups" := by decide
  have h3 : toLowerStr "providers" = "providers" := by decide
  have h4 : toLowerStr "Microsoft.DBforPostgreSQL" = "microsoft.dbforpostgresql" := by decide
  have h5 : toLowerStr "flexibleServers" = "flexibleservers" := by decide
  have h6 : toLowerStr "firewallRules" = "firewallrules" := by decide
  simp [parseFirewallRuleIDInsensitively, NewFirewallRuleID, FirewallRuleId.ID,
    h1, h2, h3, h4, h5, h6, hs, hr, hv, hn]

theorem contains_iff_mem (names : List String) (nm : String) :
    names.contains nm = true ↔ nm ∈ names :=
  List.elem_iff

theorem canonical_mem_map_names (sub rg srv nm : String) (rules : List Rule) :
    ((NewFirewallRuleID sub rg srv nm).ID ∈
        rules.map (fun r => (NewFirewallRuleID sub rg srv r.name).ID)) ↔
      nm ∈ rules.map Rule.name := by
  simp [List.mem_map, NewFirewallRuleID, FirewallRuleId.ID]

theorem rulesToDeleteStep_canonical (sub rg srv : String) (desired : List Rule)
    (hs : validSeg sub = true) (hr : validSeg rg = true) (hv : validSeg srv = true)
    (p : String × FirewallRuleProperties) (hpv : validSeg p.1 = true)
    (acc : List FirewallRuleId) :
    rulesToDeleteStep (buildFirewallRulesMap (NewFirewallRuleID sub rg srv) desired)
        acc (mkRemoteRule sub rg srv p)
      = if p.1 ∈ desired.map Rule.name then acc
        else acc ++ [NewFirewallRuleID sub rg srv p.1] := by
  unfold rulesToDeleteStep mkRemoteRule pointerFrom
  simp only [Option.getD_some]
  rw [parseInsensitively_canonical sub rg srv p.1 hs hr hv hpv]
  by_cases hmem : p.1 ∈ desired.map Rule.name
  · have hl : (mapLookup (buildFirewallRulesMap (NewFirewallRuleID sub rg srv) desired)
        (NewFirewallRuleID sub rg srv p.1).ID).isSome = true := by
      rw [mapLookup_build_isSome]
      exact (canonical_mem_map_names sub rg srv p.1 desired).mpr hmem
    simp [hl, hmem]
  · have hl : (mapLookup (buildFirewallRulesMap (NewFirewallRuleID sub rg srv) desired)
        (NewFirewallRuleID sub rg srv p.1).ID).isSome = false := by
      rw [Bool.eq_false_iff]
      intro hcon
      exact hmem ((canonical_mem_map_names sub rg srv p.1 desired).mp
        ((mapLookup_build_isSome _ _ _).mp hcon))
    simp [hl, hmem]

theorem rulesToDelete_canonical_aux (sub rg srv : String) (desired : List Rule)
    (hs : validSeg sub = true) (hr : validSeg rg = true) (hv : validSeg srv = true) :
    ∀ (cur : List (String × FirewallRuleProperties)),
      (∀ p ∈ cur, validSeg p.1 = true) →
      ∀ (acc : List FirewallRuleId),
      (cur.map (mkRemoteRule sub rg srv)).foldl
          (rulesToDeleteStep (buildFirewallRulesMap (NewFirewallRuleID sub rg srv) desired)) acc
        = acc ++ ((cur.map Prod.fst).filter
            (fun nm => !((desired.map Rule.name).contains nm))).map
            (NewFirewallRuleID sub rg srv) := by
  intro cur
  induction cur with
  | nil => intro _ acc; simp
  | cons p t ih =>
    intro hc acc
    have hpv : validSeg p.1 = true := hc p (List.mem_cons_self p t)
    rw [List.map_cons, List.foldl_cons,
        rulesToDeleteStep_canonical sub rg srv desired hs hr hv p hpv acc]
    by_cases hmem : p.1 ∈ desired.map Rule.name
    · have hb : (desired.map Rule.name).contains p.1 = true :=
        (contains_iff_mem _ _).mpr hmem
      rw [if_pos hmem, ih (fun q hq => hc q (List.mem_cons_of_mem _ hq)) acc,
        List.map_cons, List.filter_cons, hb]
      rw [if_neg (by decide : ¬ ((!true) = true))]
    · have hb : (desired.map Rule.name).contains p.1 = false := by
        rw [Bool.eq_false_iff]
        intro hcon
        exact hmem ((contains_iff_mem _ _).mp hcon)
      rw [if_neg hmem, ih (fun q hq => hc q (List.mem_cons_of_mem _ hq)),
        List.map_cons, List.filter_cons, hb]
      rw [if_pos (by decide : (!false) = true)]
      simp only [List.map_cons, List.append_assoc, List.singleton_append]

theorem rulesToDelete_canonical (sub rg srv : String) (desired : List Rule)
    (cur : List (String × FirewallRuleProperties))
    (hs : validSeg sub = true) (hr : validSeg rg = true) (hv : validSeg srv = true)
    (hc : ∀ p ∈ cur, validSeg p.1 = true) :
    rulesToDelete (buildFirewallRulesMap (NewFirewallRuleID sub rg srv) desired)
        (cur.map (mkRemoteRule sub rg srv))
      = ((cur.map Prod.fst).filter
          (fun nm => !((desired.map Rule.name).contains nm))).map
          (NewFirewallRuleID sub rg srv) := by
  unfold rulesToDelete
  rw [rulesToDelete_canonical_aux sub rg srv desired hs hr hv cur hc []]
  simp

theorem mapInsert_not_mem (m : List (List String × FirewallRule))
    (k : List String) (v : FirewallRule) (h : ∀ p ∈ m, ¬ (p.1 = k)) :
    mapInsert m k v = m ++ [(k, v)] := by
  unfold mapInsert
  rw [List.filter_eq_self.mpr]
  intro p hp
  simpa using h p hp

theorem build_foldl_nodup (mkId : String → FirewallRuleId) :
    ∀ (rules : List Rule) (m : List (List String × FirewallRule)),
    (rules.map (fun r => (mkId r.name).ID)).Nodup →
    (∀ p ∈ m, p.1 ∉ rules.map (fun r => (mkId r.name).ID)) →
    rules.foldl (buildStep mkId) m
      = m ++ rules.map (fun r => ((mkId r.name).ID, fwRuleOfRule r)) := by
  intro rules
  induction rules with
  | nil => intro m _ _; simp
  | cons r t ih =>
    intro m hnd hdisj
    rw [List.map_cons, List.nodup_cons] at hnd
    rw [List.foldl_cons]
    have h1 : buildStep mkId m r = m ++ [((mkId r.name).ID, fwRuleOfRule r)] := by
      unfold buildStep
      refine mapInsert_not_mem _ _ _ (fun p hp heq => hdisj p hp ?_)
      rw [List.map_cons, heq]
      exact List.mem_cons_self _ _
    have hdisj2 : ∀ p ∈ m ++ [((mkId r.name).ID, fwRuleOfRule r)],
        p.1 ∉ t.map (fun r => (mkId r.name).ID) := by
      intro p hp
      rcases List.mem_append.mp hp with hp1 | hp2
      · intro hcon
        exact hdisj p hp1 (by rw [List.map_cons]; exact List.mem_cons_of_mem _ hcon)
      · rcases List.mem_singleton.mp hp2 with rfl
        exact hnd.1
    rw [h1, ih _ hnd.2 hdisj2, List.map_cons, List.append_assoc]
    rfl

theorem buildFirewallRulesMap_nodup (mkId : String → FirewallRuleId)
    (rules : List Rule) (hnd : (rules.map (fun r => (mkId r.name).ID)).Nodup) :
    buildFirewallRulesMap mkId rules
      = rules.map (fun r => ((mkId r.name).ID, fwRuleOfRule r)) := by
  unfold buildFirewallRulesMap
  rw [build_foldl_nodup mkId rules [] hnd (by simp)]
  simp

theorem canonical_keys_nodup (sub rg srv : String) (rules : List Rule)
    (h : (rules.map Rule.name).Nodup) :
    (rules.map (fun r => (NewFirewallRuleID sub rg srv r.name).ID)).Nodup := by
  have hinj : Function.Injective (fun nm => (NewFirewallRuleID sub rg srv nm).ID) := by
    intro a b hab
    exact (canonicalID_inj sub rg srv a b).mp hab
  have := h.map hinj
  simpa [List.map_map, Function.comp] using this

/-!  Helper lemmas: the executor's reachability invariant.  -/

theorem countP_set_balance {α : Type} (p : α → Bool) :
    ∀ (l : List α) (i : Nat) (x old : α), l[i]? = some old →
    (l.set i x).countP p + (if p old then 1 else 0)
      = l.countP p + (if p x then 1 else 0) := by
  intro l
  induction l with
  | nil => intro i x old h; simp at h
  | cons a t ih =>
    intro i x old h
    cases i with
    | zero =>
      rw [List.getElem?_cons_zero] at h
      injection h with h
      subst h
      rw [List.set_cons_zero, List.countP_cons, List.countP_cons]
      omega
    | succ n =>
      rw [List.getElem?_cons_succ] at h
      rw [List.set_cons_succ, List.countP_cons, List.countP_cons]
      have := ih n x old h
      omega

/-- The reachability invariant of one executor phase: the semaphore counts the
permit-holding goroutines and never exceeds the cap; `collected` counts the
results the main loop has received; the channel closes only once every
goroutine is done; while the loop is still collecting every received result
was `nil`; and a `nil` return from the loop means every result was received
and `nil`. -/
structure ExecInv (outcomes : List (Option GoErr)) (s : ExecState) : Prop where
  len : s.stages.length = outcomes.length
  semEq : s.sem = s.stages.countP permitHeld
  semLe : s.sem ≤ maxConcurrency
  collectedEq : s.collected = s.stages.countP resultReceived
  closedDone : s.closed = true → ∀ st ∈ s.stages, st = Stage.done
  collectingOk : s.main = MainPC.collecting →
    ∀ i st, s.stages[i]? = some st → resultReceived st = true →
      outcomes.getD i none = none
  returnedNone : s.main = MainPC.returned none →
    (∀ st ∈ s.stages, st = Stage.done) ∧
      (∀ i, i < outcomes.length → outcomes.getD i none = none)

theorem execInv_init (outcomes : List (Option GoErr)) :
    ExecInv outcomes (execInit outcomes.length) := by
  refine ⟨?_, ?_, ?_, ?_, ?_, ?_, ?_⟩
  · simp [execInit]
  · simp [execInit, List.countP_replicate, permitHeld]
  · simp [execInit, maxConcurrency]
  · simp [execInit, List.countP_replicate, resultReceived]
  · intro h; simp [execInit] at h
  · intro _ i st hst hrec
    simp only [execInit, List.getElem?_replicate] at hst
    by_cases hi : i < outcomes.length
    · rw [if_pos hi] at hst
      injection hst with hst
      rw [← hst] at hrec
      simp [resultReceived] at hrec
    · rw [if_neg hi] at hst
      cases hst
  · intro h; simp [execInit] at h

theorem execInv_step (outcomes : List (Option GoErr)) (s : ExecState)
    (a : ExecAction) (h : ExecInv outcomes s) :
    ExecInv outcomes (execStep outcomes s a) := by
  cases a with
  | acquire i =>
    simp only [execStep]
    by_cases hg : s.stages[i]? = some Stage.waitPermit ∧ s.sem < maxConcurrency
    · rw [if_pos hg]
      obtain ⟨hw, hlt⟩ := hg
      have hbal := countP_set_balance permitHeld s.stages i Stage.running _ hw
      have hbal2 := countP_set_balance resultReceived s.stages i Stage.running _ hw
      simp [permitHeld, resultReceived] at hbal hbal2
      refine ⟨?_, ?_, ?_, ?_, ?_, ?_, ?_⟩ <;> dsimp only
      · rw [List.length_set]; exact h.len
      · have := h.semEq; omega
      · omega
      · have := h.collectedEq; omega
      · intro hcl
        exfalso
        have hall := h.closedDone hcl
        have hmem : Stage.waitPermit ∈ s.stages := List.getElem?_mem hw
        cases hall _ hmem
      · intro hm j st hj hrec
        by_cases hij : i = j
        · subst hij
          have hil : i < s.stages.length := by
            by_contra hcon
            rw [List.getElem?_eq_none (Nat.le_of_not_lt hcon)] at hw
            cases hw
          rw [List.getElem?_set_self hil] at hj
          injection hj with hj
          rw [← hj] at hrec
          simp [resultReceived] at hrec
        · rw [List.getElem?_set_ne hij] at hj
          exact h.collectingOk hm j st hj hrec
      · intro hm
        exfalso
        have hall := (h.returnedNone hm).1
        have hmem : Stage.waitPermit ∈ s.stages := List.getElem?_mem hw
        cases hall _ hmem
    · rw [if_neg hg]; exact h
  | finishOp i =>
    simp only [execStep]
    by_cases hg : s.stages[i]? = some Stage.running
    · rw [if_pos hg]
      have hbal := countP_set_balance permitHeld s.stages i Stage.sendReady _ hg
      have hbal2 := countP_set_balance resultReceived s.stages i Stage.sendReady _ hg
      simp [permitHeld, resultReceived] at hbal hbal2
      refine ⟨?_, ?_, ?_, ?_, ?_, ?_, ?_⟩ <;> dsimp only
      · rw [List.length_set]; exact h.len
      · have := h.semEq; omega
      · exact h.semLe
      · have := h.collectedEq; omega
      · intro hcl
        exfalso
        have hall := h.closedDone hcl
        have hmem : Stage.running ∈ s.stages := List.getElem?_mem hg
        cases hall _ hmem
      · intro hm j st hj hrec
        by_cases hij : i = j
        · subst hij
          have hil : i < s.stages.length := by
            by_contra hcon
            rw [List.getElem?_eq_none (Nat.le_of_not_lt hcon)] at hg
            cases hg
          rw [List.getElem?_set_self hil] at hj
          injection hj with hj
          rw [← hj] at hrec
          simp [resultReceived] at hrec
        · rw [List.getElem?_set_ne hij] at hj
          exact h.collectingOk hm j st hj hrec
      · intro hm
        exfalso
        have hall := (h.returnedNone hm).1
        have hmem : Stage.running ∈ s.stages := List.getElem?_mem hg
        cases hall _ hmem
    · rw [if_neg hg]; exact h
  | send i =>
    simp only [execStep]
    by_cases hg : s.stages[i]? = some Stage.sendReady ∧ s.main = MainPC.collecting
    · rw [if_pos hg]
      obtain ⟨hw, hm⟩ := hg
      have hbal := countP_set_balance permitHeld s.stages i Stage.releasing _ hw
      have hbal2 := countP_set_balance resultReceived s.stages i Stage.releasing _ hw
      simp [permitHeld, resultReceived] at hbal hbal2
      refine ⟨?_, ?_, ?_, ?_, ?_, ?_, ?_⟩ <;> dsimp only
      · rw [List.length_set]; exact h.len
      · have := h.semEq; omega
      · exact h.semLe
      · have := h.collectedEq; omega
      · intro hcl
        exfalso
        have hall := h.closedDone hcl
        have hmem : Stage.sendReady ∈ s.stages := List.getElem?_mem hw
        cases hall _ hmem
      · intro hm2 j st hj hrec
        cases houtc : outcomes.getD i none with
        | some e => rw [houtc] at hm2; cases hm2
        | none =>
          by_cases hij : i = j
          · subst hij
            exact houtc
          · rw [List.getElem?_set_ne hij] at hj
            exact h.collectingOk hm j st hj hrec
      · intro hm2
        exfalso
        cases houtc : outcomes.getD i none with
        | some e =>
          rw [houtc] at hm2
          injection hm2 with hm2
          cases hm2
        | none => rw [houtc] at hm2; cases hm2
    · rw [if_neg hg]; exact h
  | release i =>
    simp only [execStep]
    by_cases hg : s.stages[i]? = some Stage.releasing
    · rw [if_pos hg]
      have hbal := countP_set_balance permitHeld s.stages i Stage.done _ hg
      have hbal2 := countP_set_balance resultReceived s.stages i Stage.done _ hg
      simp [permitHeld, resultReceived] at hbal hbal2
      refine ⟨?_, ?_, ?_, ?_, ?_, ?_, ?_⟩ <;> dsimp only
      · rw [List.length_set]; exact h.len
      · have := h.semEq; omega
      · have := h.semLe; omega
      · have := h.collectedEq; omega
      · intro hcl
        exfalso
        have hall := h.closedDone hcl
        have hmem : Stage.releasing ∈ s.stages := List.getElem?_mem hg
        cases hall _ hmem
      · intro hm j st hj hrec
        by_cases hij : i = j
        · subst hij
          exact h.collectingOk hm i _ hg (by simp [resultReceived])
        · rw [List.getElem?_set_ne hij] at hj
          exact h.collectingOk hm j st hj hrec
      · intro hm
        obtain ⟨hall, hout⟩ := h.returnedNone hm
        refine ⟨?_, hout⟩
        intro st hst
        rcases List.mem_or_eq_of_mem_set hst with hmem | rfl
        · exact hall _ hmem
        · rfl
    · rw [if_neg hg]; exact h
  | closeCh =>
    simp only [execStep]
    by_cases hg : s.stages.all (fun st => decide (st = Stage.done)) = true ∧ s.closed = false
    · rw [if_pos hg]
      refine ⟨h.len, h.semEq, h.semLe, h.collectedEq, ?_, h.collectingOk, h.returnedNone⟩
      intro _ st hst
      have := List.all_eq_true.mp hg.1 st hst
      exact of_decide_eq_true this
    · rw [if_neg hg]; exact h
  | recvClosed =>
    simp only [execStep]
    by_cases hg : s.closed = true ∧ s.main = MainPC.collecting
    · rw [if_pos hg]
      obtain ⟨hcl, hm⟩ := hg
      have hall := h.closedDone hcl
      refine ⟨h.len, h.semEq, h.semLe, h.collectedEq, fun _ => hall, ?_, ?_⟩ <;> dsimp only
      · intro hcon; cases hcon
      · intro _
        refine ⟨hall, ?_⟩
        intro i hi
        have hil : i < s.stages.length := by rw [h.len]; exact hi
        have hst : s.stages[i]? = some (s.stages.get ⟨i, hil⟩) := by
          rw [List.getElem?_eq_getElem hil]
          rfl
        have hdone : s.stages.get ⟨i, hil⟩ = Stage.done :=
          hall _ (List.getElem_mem hil)
        refine h.collectingOk hm i _ hst ?_
        rw [hdone]
        simp [resultReceived]
    · rw [if_neg hg]; exact h

theorem execRun_inv (outcomes : List (Option GoErr)) (sched : List ExecAction) :
    ExecInv outcomes (execRun outcomes sched) := by
  unfold execRun
  have hgen : ∀ (s : ExecState), ExecInv outcomes s →
      ExecInv outcomes (sched.foldl (execStep outcomes) s) := by
    induction sched with
    | nil => intro s hs; exact hs
    | cons a t ih => intro s hs; exact ih _ (execInv_step outcomes s a hs)
  exact hgen _ (execInv_init outcomes)

theorem execRun_returned_none (outcomes : List (Option GoErr))
    (sched : List ExecAction)
    (h : (execRun outcomes sched).main = MainPC.returned none) :
    (execRun outcomes sched).collected = outcomes.length ∧
      ∀ x ∈ outcomes, x = none := by
  have inv := execRun_inv outcomes sched
  obtain ⟨hdone, hout⟩ := inv.returnedNone h
  constructor
  · rw [inv.collectedEq]
    rw [← inv.len]
    rw [List.countP_eq_length.mpr]
    intro st hst
    rw [hdone st hst]
    simp [resultReceived]
  · intro x hx
    rcases List.getElem?_of_mem hx with ⟨n, hn⟩
    have hlt : n < outcomes.length := by
      by_contra hcon
      rw [List.getElem?_eq_none (Nat.le_of_not_lt hcon)] at hn
      cases hn
    have hgd := hout n hlt
    rw [List.getD_eq_getElem?_getD, hn] at hgd
    simpa using hgd

theorem inFlight_le_cap (outcomes : List (Option GoErr))
    (sched : List ExecAction) :
    inFlight (execRun outcomes sched) ≤ maxConcurrency := by
  have inv := execRun_inv outcomes sched
  have hmono : inFlight (execRun outcomes sched)
      ≤ (execRun outcomes sched).stages.countP permitHeld := by
    unfold inFlight
    refine List.countP_mono_left ?_
    intro st _ hst
    have : st = Stage.running := of_decide_eq_true hst
    rw [this]
    rfl
  calc inFlight (execRun outcomes sched)
      ≤ (execRun outcomes sched).stages.countP permitHeld := hmono
    _ = (execRun outcomes sched).sem := inv.semEq.symm
    _ ≤ maxConcurrency := inv.semLe

theorem set_append_length {α : Type} (l1 : List α) (k : Nat) (hk : l1.length = k)
    (l2 : List α) (a x : α) :
    (l1 ++ a :: l2).set k x = l1 ++ x :: l2 := by
  subst hk
  induction l1 with
  | nil => rfl
  | cons b t ih => simp [List.set_cons_succ, ih]

theorem execRun_acquireSched (outcomes : List (Option GoErr)) :
    ∀ (k : Nat), k ≤ outcomes.length → k ≤ maxConcurrency →
    execRun outcomes (acquireSched k) =
      { stages := List.replicate k Stage.running
          ++ List.replicate (outcomes.length - k) Stage.waitPermit,
        sem := k, closed := false, main := MainPC.collecting, collected := 0 } := by
  intro k
  induction k with
  | zero => intro _ _; simp [execRun, acquireSched, execInit]
  | succ k ih =>
    intro hk hc
    have hk' : k ≤ outcomes.length := Nat.le_of_succ_le hk
    have hc' : k ≤ maxConcurrency := Nat.le_of_succ_le hc
    have hsched : acquireSched (k + 1) = acquireSched k ++ [ExecAction.acquire k] := by
      unfold acquireSched
      rw [List.range_succ, List.map_append]
      rfl
    rw [hsched]
    unfold execRun at ih ⊢
    rw [List.foldl_append, ih hk' hc']
    simp only [List.foldl_cons, List.foldl_nil]
    simp only [execStep]
    have hnk : outcomes.length - k = (outcomes.length - (k + 1)) + 1 := by omega
    have hstage : (List.replicate k Stage.running
        ++ List.replicate (outcomes.length - k) Stage.waitPermit)[k]?
        = some Stage.waitPermit := by
      rw [List.getElem?_append_right (by simp)]
      rw [List.length_replicate, Nat.sub_self, List.getElem?_replicate]
      rw [if_pos (by omega)]
    rw [if_pos ⟨hstage, by omega⟩]
    have hset : (List.replicate k Stage.running
          ++ List.replicate (outcomes.length - k) Stage.waitPermit).set k Stage.running
        = List.replicate (k + 1) Stage.running
          ++ List.replicate (outcomes.length - (k + 1)) Stage.waitPermit := by
      rw [hnk, List.replicate_succ]
      rw [set_append_length (List.replicate k Stage.running) k (by simp)]
      rw [List.replicate_succ' k Stage.running,
        List.append_assoc, List.singleton_append]
    rw [hset]

theorem inFlight_acquireSched (outcomes : List (Option GoErr)) (k : Nat)
    (hk : k ≤ outcomes.length) (hc : k ≤ maxConcurrency) :
    inFlight (execRun outcomes (acquireSched k)) = k := by
  rw [execRun_acquireSched outcomes k hk hc]
  unfold inFlight
  simp [List.countP_append, List.countP_replicate]

/-- Once the main loop has returned, no further step collects a result, and a
goroutine blocked sending on `errs` stays blocked. -/
theorem execStep_stuck (outcomes : List (Option GoErr)) (s : ExecState)
    (a : ExecAction) (hmain : s.main ≠ MainPC.collecting) :
    (execStep outcomes s a).main = s.main ∧
    (execStep outcomes s a).collected = s.collected ∧
    ∀ (i : Nat), s.stages[i]? = some Stage.sendReady →
      (execStep outcomes s a).stages[i]? = some Stage.sendReady := by
  cases a with
  | acquire j =>
    simp only [execStep]
    by_cases hg : s.stages[j]? = some Stage.waitPermit ∧ s.sem < maxConcurrency
    · rw [if_pos hg]
      refine ⟨rfl, rfl, ?_⟩
      intro i hi
      dsimp only
      have hij : j ≠ i := by
        intro hcon
        rw [hcon, hi] at hg
        cases hg.1
      rw [List.getElem?_set_ne hij]
      exact hi
    · rw [if_neg hg]; exact ⟨rfl, rfl, fun i hi => hi⟩
  | finishOp j =>
    simp only [execStep]
    by_cases hg : s.stages[j]? = some Stage.running
    · rw [if_pos hg]
      refine ⟨rfl, rfl, ?_⟩
      intro i hi
      dsimp only
      have hij : j ≠ i := by
        intro hcon
        rw [hcon, hi] at hg
        cases hg
      rw [List.getElem?_set_ne hij]
      exact hi
    · rw [if_neg hg]; exact ⟨rfl, rfl, fun i hi => hi⟩
  | send j =>
    simp only [execStep]
    rw [if_neg (fun hg => hmain hg.2)]
    exact ⟨rfl, rfl, fun i hi => hi⟩
  | release j =>
    simp only [execStep]
    by_cases hg : s.stages[j]? = some Stage.releasing
    · rw [if_pos hg]
      refine ⟨rfl, rfl, ?_⟩
      intro i hi
      dsimp only
      have hij : j ≠ i := by
        intro hcon
        rw [hcon, hi] at hg
        cases hg
      rw [List.getElem?_set_ne hij]
      exact hi
    · rw [if_neg hg]; exact ⟨rfl, rfl, fun i hi => hi⟩
  | closeCh =>
    simp only [execStep]
    by_cases hg : s.stages.all (fun st => decide (st = Stage.done)) = true ∧ s.closed = false
    · rw [if_pos hg]; exact ⟨rfl, rfl, fun i hi => hi⟩
    · rw [if_neg hg]; exact ⟨rfl, rfl, fun i hi => hi⟩
  | recvClosed =>
    simp only [execStep]
    rw [if_neg (fun hg => hmain hg.2)]
    exact ⟨rfl, rfl, fun i hi => hi⟩

theorem execFold_stuck (outcomes : List (Option GoErr)) (extra : List ExecAction) :
    ∀ (s : ExecState), s.main ≠ MainPC.collecting →
    (extra.foldl (execStep outcomes) s).main = s.main ∧
    (extra.foldl (execStep outcomes) s).collected = s.collected ∧
    ∀ (i : Nat), s.stages[i]? = some Stage.sendReady →
      (extra.foldl (execStep outcomes) s).stages[i]? = some Stage.sendReady := by
  induction extra with
  | nil => intro s _; exact ⟨rfl, rfl, fun i hi => hi⟩
  | cons a t ih =>
    intro s hmain
    obtain ⟨hm1, hc1, hs1⟩ := execStep_stuck outcomes s a hmain
    obtain ⟨hm2, hc2, hs2⟩ := ih (execStep outcomes s a) (by rw [hm1]; exact hmain)
    rw [List.foldl_cons]
    exact ⟨by rw [hm2, hm1], by rw [hc2, hc1], fun i hi => hs2 i (hs1 i hi)⟩

/-- A current rule whose `Id` fails the case-insensitive parse contributes
nothing to the deletion-candidate loop. -/
theorem rulesToDelete_foldl_filter
    (firewallRules : List (List String × FirewallRule)) :
    ∀ (current : List FirewallRule) (acc : List FirewallRuleId),
    current.foldl (rulesToDeleteStep firewallRules) acc
      = (current.filter (fun v =>
          (parseFirewallRuleIDInsensitively (pointerFrom v.id)).isSome)).foldl
          (rulesToDeleteStep firewallRules) acc := by
  intro current
  induction current with
  | nil => intro acc; rfl
  | cons v t ih =>
    intro acc
    cases hp : parseFirewallRuleIDInsensitively (pointerFrom v.id) with
    | none =>
      have hstep : rulesToDeleteStep firewallRules acc v = acc := by
        unfold rulesToDeleteStep
        rw [hp]
      rw [List.foldl_cons, hstep, List.filter_cons, hp]
      simp only [Option.isSome_none]
      rw [if_neg (by decide : ¬ (false = true))]
      exact ih acc
    | some cId =>
      rw [List.foldl_cons, List.filter_cons, hp]
      simp only [Option.isSome_some]
      rw [if_pos trivial, List.foldl_cons]
      exact ih _

theorem rulesToDelete_filter_unparseable
    (firewallRules : List (List String × FirewallRule))
    (current : List FirewallRule) :
    rulesToDelete firewallRules current
      = rulesToDelete firewallRules (current.filter (fun v =>
          (parseFirewallRuleIDInsensitively (pointerFrom v.id)).isSome)) := by
  unfold rulesToDelete
  exact rulesToDelete_foldl_filter firewallRules current []

/-- Every key of the desired-rules map is the canonical ID of some desired
rule's name. -/
theorem mem_build_key (mkId : String → FirewallRuleId) :
    ∀ (rules : List Rule) (m : List (List String × FirewallRule))
      (p : List String × FirewallRule),
    p ∈ rules.foldl (buildStep mkId) m →
    p ∈ m ∨ ∃ r ∈ rules, p.1 = (mkId r.name).ID := by
  intro rules
  induction rules with
  | nil => intro m p hp; exact Or.inl hp
  | cons r t ih =>
    intro m p hp
    rw [List.foldl_cons] at hp
    rcases ih _ p hp with hmem | ⟨r', hr', hkey⟩
    · unfold buildStep mapInsert at hmem
      rcases List.mem_append.mp hmem with hf | hone
      · exact Or.inl (List.mem_filter.mp hf).1
      · rcases List.mem_singleton.mp hone with rfl
        exact Or.inr ⟨r, List.mem_cons_self r t, rfl⟩
    · exact Or.inr ⟨r', List.mem_cons_of_mem r hr', hkey⟩

theorem buildMap_keys_parse (sub rg srv : String) (rules : List Rule)
    (hs : validSeg sub = true) (hr : validSeg rg = true) (hv : validSeg srv = true)
    (hn : ∀ r ∈ rules, validSeg r.name = true) :
    ∀ p ∈ buildFirewallRulesMap (NewFirewallRuleID sub rg srv) rules,
      (parseFirewallRuleID p.1).isSome = true := by
  intro p hp
  rcases mem_build_key (NewFirewallRuleID sub rg srv) rules [] p hp with h0 | ⟨r, hr2, hkey⟩
  · cases h0
  · rw [hkey, parseFirewallRuleID_canonical sub rg srv r.name hs hr hv (hn r hr2)]
    rfl

/-!  The claims.  -/

/-- Claim C5, counterexample: the claim says every operation computes the same
RuleID from the same `(ParentID, name)`; but for a parent whose subscription
(`sub-a`) differs from the provider account's subscription (`sub-b`), the
RuleID built by `Update` (source line 243, from the account subscription)
differs from the RuleID built by `Create` (source line 133, from the parent
ID's subscription). -/
theorem c5_ruleID_subscription_mismatch :
    updateFirewallRuleID "sub-b" ⟨"sub-a", "rg1", "srv1"⟩ "n"
      ≠ createFirewallRuleID ⟨"sub-a", "rg1", "srv1"⟩ "n" := by
  decide

/-- Claim C5, amended: within each operation the RuleID is a deterministic
function of its inputs, but `Update` derives the subscription from the
provider account while `Create` derives it from the parent ID; the two
operations compute the same RuleID for the same `(ParentID, name)` exactly
when the account subscription equals the parent ID's subscription. -/
theorem c5_ruleID_agreement_iff (accountSub : String) (id : FlexibleServerId)
    (name : String) :
    updateFirewallRuleID accountSub id name = createFirewallRuleID id name ↔
      accountSub = id.subscriptionId := by
  unfold updateFirewallRuleID createFirewallRuleID NewFirewallRuleID
  simp [FirewallRuleId.mk.injEq]

/-- Claim C6: a `Create` invocation whose listing returns a non-empty remote
collection fails with the import-as-exists error and dispatches no remote
mutation (source lines 117-123 return before any `batchCreateOrUpdate`). -/
theorem c6_create_nonempty_already_exists
    (model : FlexibleServerFirewallRulesModel) (listItems : List FirewallRule)
    (opRes : FirewallRuleId → FirewallRule → Option GoErr)
    (sched : List ExecAction) (id : FlexibleServerId)
    (hp : parseFlexibleServerID model.serverID = some id)
    (hne : listItems ≠ []) :
    createRun model (.ok listItems) opRes sched
      = { result := .returned (some (.importAsExists resourceTypeName id.ID)),
          dispatched := [] } := by
  have hlen : listItems.length ≠ 0 := fun hcon => hne (List.length_eq_zero.mp hcon)
  simp [createRun, hp, hlen]

/-- Claim C6, witness at a concrete non-empty parent. -/
theorem c6_create_nonempty_already_exists_witness :
    (parseFlexibleServerID
        (⟨(FlexibleServerId.mk "sub" "rg" "srv").ID, [⟨"b", "1.1.1.1", "1.1.1.1"⟩]⟩ :
          FlexibleServerFirewallRulesModel).serverID
      = some (FlexibleServerId.mk "sub" "rg" "srv")) ∧
    ([mkRemoteRule "sub" "rg" "srv" ("a", ⟨"2.2.2.2", "2.2.2.2"⟩)] ≠
      ([] : List FirewallRule)) ∧
    createRun ⟨(FlexibleServerId.mk "sub" "rg" "srv").ID, [⟨"b", "1.1.1.1", "1.1.1.1"⟩]⟩
        (.ok [mkRemoteRule "sub" "rg" "srv" ("a", ⟨"2.2.2.2", "2.2.2.2"⟩)])
        (fun _ _ => none) []
      = { result := .returned (some (.importAsExists resourceTypeName
            (FlexibleServerId.mk "sub" "rg" "srv").ID)), dispatched := [] } :=
  ⟨by decide, by decide,
    c6_create_nonempty_already_exists _ _ _ _ _ (by decide) (by decide)⟩

/-- Claim C9: every key of the desired-rules map is produced by
`NewFirewallRuleID(...).ID()` from validated components, so the
`ParseFirewallRuleID` call whose error is discarded (source lines 143 / 285)
succeeds on every key, in `Create` and in `Update` alike, and the pointer it
returns is never nil.  Validity of the components (non-empty, `/`-free) is
guaranteed upstream by the schema validators and ID parser, which live outside
the reconciliation core. -/
theorem c9_desired_map_keys_parse (id : FlexibleServerId) (accountSub : String)
    (rules : List Rule)
    (hs : validSeg id.subscriptionId = true)
    (hr : validSeg id.resourceGroupName = true)
    (hv : validSeg id.flexibleServerName = true)
    (ha : validSeg accountSub = true)
    (hn : ∀ r ∈ rules, validSeg r.name = true) :
    (∀ p ∈ buildFirewallRulesMap (createFirewallRuleID id) rules,
        (parseFirewallRuleID p.1).isSome = true) ∧
    (∀ p ∈ buildFirewallRulesMap (updateFirewallRuleID accountSub id) rules,
        (parseFirewallRuleID p.1).isSome = true) :=
  ⟨buildMap_keys_parse id.subscriptionId id.resourceGroupName
      id.flexibleServerName rules hs hr hv hn,
    buildMap_keys_parse accountSub id.resourceGroupName
      id.flexibleServerName rules ha hr hv hn⟩

/-- Claim C9, witness at a concrete parent and rule set. -/
theorem c9_desired_map_keys_parse_witness :
    (validSeg (FlexibleServerId.mk "sub" "rg" "srv").subscriptionId = true) ∧
    (validSeg (FlexibleServerId.mk "sub" "rg" "srv").resourceGroupName = true) ∧
    (validSeg (FlexibleServerId.mk "sub" "rg" "srv").flexibleServerName = true) ∧
    (validSeg "acct" = true) ∧
    (∀ r ∈ ([⟨"a", "1.1.1.1", "1.1.1.1"⟩, ⟨"b", "2.2.2.2", "2.2.2.2"⟩] : List Rule),
        validSeg r.name = true) ∧
    ((∀ p ∈ buildFirewallRulesMap (createFirewallRuleID ⟨"sub", "rg", "srv"⟩)
          [⟨"a", "1.1.1.1", "1.1.1.1"⟩, ⟨"b", "2.2.2.2", "2.2.2.2"⟩],
        (parseFirewallRuleID p.1).isSome = true) ∧
     (∀ p ∈ buildFirewallRulesMap (updateFirewallRuleID "acct" ⟨"sub", "rg", "srv"⟩)
          [⟨"a", "1.1.1.1", "1.1.1.1"⟩, ⟨"b", "2.2.2.2", "2.2.2.2"⟩],
        (parseFirewallRuleID p.1).isSome = true)) :=
  ⟨by decide, by decide, by decide, by decide, by decide,
    c9_desired_map_keys_parse ⟨"sub", "rg", "srv"⟩ "acct" _
      (by decide) (by decide) (by decide) (by decide) (by decide)⟩

/-- Claim C10: a current remote rule whose `Id` fails the case-insensitive
parse (source line 251 checks `err == nil` with no else branch) is silently
omitted: dropping all such rules from the listing changes neither the
deletion candidates nor any observable output of `Update`, so the rule is
never deleted and no error is reported for it. -/
theorem c10_unparseable_current_rules_silently_skipped
    (firewallRules : List (List String × FirewallRule))
    (current : List FirewallRule)
    (accountSub : String) (model : FlexibleServerFirewallRulesModel)
    (changedKeys : List String)
    (deleteRes : FirewallRuleId → Option GoErr)
    (upsertRes : FirewallRuleId → FirewallRule → Option GoErr)
    (dSched uSched : List ExecAction) :
    rulesToDelete firewallRules current
      = rulesToDelete firewallRules (current.filter (fun v =>
          (parseFirewallRuleIDInsensitively (pointerFrom v.id)).isSome)) ∧
    updateRun accountSub model changedKeys (.ok current) deleteRes upsertRes
        dSched uSched
      = updateRun accountSub model changedKeys
          (.ok (current.filter (fun v =>
            (parseFirewallRuleIDInsensitively (pointerFrom v.id)).isSome)))
          deleteRes upsertRes dSched uSched := by
  refine ⟨rulesToDelete_filter_unparseable firewallRules current, ?_⟩
  cases hp : parseFlexibleServerID model.serverID with
  | none => simp [updateRun, hp]
  | some id =>
    by_cases hch : hasChange changedKeys "firewall_rule" = true
    · simp only [updateRun, hp, hch, if_true]
      rw [← rulesToDelete_filter_unparseable]
    · simp [updateRun, hp, hch]

/-- Claim C3, counterexample: the claim says `toDelete` contains exactly the
current rules whose name is absent from the desired names; but a current rule
named `c` (absent from the desired set) whose `Id` does not parse as a
firewall-rule ID is omitted from the deletion candidates, so the computed
set is empty while the spec's set contains `c`. -/
theorem c3_diff_unparseable_id_not_deleted :
    rulesToDelete
        (buildFirewallRulesMap (NewFirewallRuleID "sub" "rg" "srv")
          [⟨"a", "10.0.0.1", "10.0.0.254"⟩])
        [{ id := some ["junk"], name := some "c",
           properties := ⟨"9.9.9.9", "9.9.9.9"⟩ }] = []
    ∧ specToDeleteNames [⟨"a", "10.0.0.1", "10.0.0.254"⟩]
        [{ id := some ["junk"], name := some "c",
           properties := ⟨"9.9.9.9", "9.9.9.9"⟩ }] = ["c"] := by
  constructor <;> decide

/-- Claim C3, amended: when every current rule carries the canonical ID of the
parent triple that also keys the desired map, `toDelete` is exactly the
current rules whose name does not occur among the desired names, and the
desired map (hence the upsert dispatch) is the desired set in full, every
desired rule keyed by its RuleID and sent as a create-or-update. -/
theorem c3_diff_characterization (sub rg srv : String) (desired : List Rule)
    (cur : List (String × FirewallRuleProperties))
    (hs : validSeg sub = true) (hr : validSeg rg = true) (hv : validSeg srv = true)
    (hc : ∀ p ∈ cur, validSeg p.1 = true)
    (hnd : (desired.map Rule.name).Nodup) :
    rulesToDelete (buildFirewallRulesMap (NewFirewallRuleID sub rg srv) desired)
        (cur.map (mkRemoteRule sub rg srv))
      = ((cur.map Prod.fst).filter
          (fun nm => !((desired.map Rule.name).contains nm))).map
          (NewFirewallRuleID sub rg srv)
    ∧ buildFirewallRulesMap (NewFirewallRuleID sub rg srv) desired
      = desired.map (fun r => ((NewFirewallRuleID sub rg srv r.name).ID,
          fwRuleOfRule r)) :=
  ⟨rulesToDelete_canonical sub rg srv desired cur hs hr hv hc,
    buildFirewallRulesMap_nodup _ desired (canonical_keys_nodup sub rg srv desired hnd)⟩

/-- Claim C3, witness at the spec's worked example: desired `{a, b}`, current
`{a, c}`; the diff deletes exactly `c` and upserts `a` and `b` in full. -/
theorem c3_diff_characterization_witness :
    (validSeg "sub" = true) ∧ (validSeg "rg" = true) ∧ (validSeg "srv" = true) ∧
    (∀ p ∈ ([("a", ⟨"10.0.0.1", "10.0.0.254"⟩),
             ("c", ⟨"9.9.9.9", "9.9.9.9"⟩)] :
        List (String × FirewallRuleProperties)), validSeg p.1 = true) ∧
    ((([⟨"a", "10.0.0.1", "10.0.0.254"⟩, ⟨"b", "10.1.0.1", "10.1.0.128"⟩] :
        List Rule).map Rule.name).Nodup) ∧
    (rulesToDelete
        (buildFirewallRulesMap (NewFirewallRuleID "sub" "rg" "srv")
          [⟨"a", "10.0.0.1", "10.0.0.254"⟩, ⟨"b", "10.1.0.1", "10.1.0.128"⟩])
        ([("a", ⟨"10.0.0.1", "10.0.0.254"⟩),
          ("c", ⟨"9.9.9.9", "9.9.9.9"⟩)].map (mkRemoteRule "sub" "rg" "srv"))
      = (([("a", (⟨"10.0.0.1", "10.0.0.254"⟩ : FirewallRuleProperties)),
           ("c", ⟨"9.9.9.9", "9.9.9.9"⟩)].map Prod.fst).filter
          (fun nm => !((([⟨"a", "10.0.0.1", "10.0.0.254"⟩,
              ⟨"b", "10.1.0.1", "10.1.0.128"⟩] : List Rule).map Rule.name).contains nm))).map
          (NewFirewallRuleID "sub" "rg" "srv")
    ∧ buildFirewallRulesMap (NewFirewallRuleID "sub" "rg" "srv")
        [⟨"a", "10.0.0.1", "10.0.0.254"⟩, ⟨"b", "10.1.0.1", "10.1.0.128"⟩]
      = ([⟨"a", "10.0.0.1", "10.0.0.254"⟩, ⟨"b", "10.1.0.1", "10.1.0.128"⟩] :
          List Rule).map (fun r => ((NewFirewallRuleID "sub" "rg" "srv" r.name).ID,
          fwRuleOfRule r))) :=
  ⟨by decide, by decide, by decide, by decide, by decide,
    c3_diff_characterization "sub" "rg" "srv" _ _
      (by decide) (by decide) (by decide) (by decide) (by decide)⟩

/-- Claim C7, counterexample: the claim says a name present in both the
desired and the current set is never placed in `toDelete`; but when the
desired map is keyed under the account subscription `sub-b` (as `Update`
does) while the current rule's `Id` carries the parent's subscription
`sub-a`, the rule named `a` — present in both sets — is deleted (and also
upserted). -/
theorem c7_shared_name_deleted_on_subscription_mismatch :
    ((rulesToDelete
        (buildFirewallRulesMap (NewFirewallRuleID "sub-b" "rg" "srv")
          [⟨"a", "1.1.1.1", "1.1.1.1"⟩])
        [mkRemoteRule "sub-a" "rg" "srv" ("a", ⟨"1.1.1.1", "1.1.1.1"⟩)]).map
        FirewallRuleId.firewallRuleName = ["a"])
    ∧ "a" ∈ ([⟨"a", "1.1.1.1", "1.1.1.1"⟩] : List Rule).map Rule.name := by
  constructor <;> decide

/-- Claim C7, amended: when every current rule carries the canonical ID of the
same parent triple that keys the desired map (same subscription, resource
group and server, byte-for-byte), the delete and upsert outputs are disjoint
on rule names: no name of a deletion candidate occurs among the desired
names, so a rule present in both sets is a single upsert, never a
delete-then-create. -/
theorem c7_diff_delete_names_disjoint (sub rg srv : String) (desired : List Rule)
    (cur : List (String × FirewallRuleProperties))
    (hs : validSeg sub = true) (hr : validSeg rg = true) (hv : validSeg srv = true)
    (hc : ∀ p ∈ cur, validSeg p.1 = true) :
    ∀ d ∈ rulesToDelete (buildFirewallRulesMap (NewFirewallRuleID sub rg srv) desired)
        (cur.map (mkRemoteRule sub rg srv)),
      d.firewallRuleName ∉ desired.map Rule.name := by
  intro d hd
  rw [rulesToDelete_canonical sub rg srv desired cur hs hr hv hc] at hd
  rcases List.mem_map.mp hd with ⟨nm, hnm, rfl⟩
  have hcon := (List.mem_filter.mp hnm).2
  intro hmem
  have hb : (desired.map Rule.name).contains
      (NewFirewallRuleID sub rg srv nm).firewallRuleName = true :=
    (contains_iff_mem _ _).mpr hmem
  have : (NewFirewallRuleID sub rg srv nm).firewallRuleName = nm := rfl
  rw [this] at hb
  rw [hb] at hcon
  cases hcon

/-- Claim C7, witness: a name in both sets (`a`) is not among the deletion
candidates when the parent triples agree. -/
theorem c7_diff_delete_names_disjoint_witness :
    (validSeg "sub" = true) ∧ (validSeg "rg" = true) ∧ (validSeg "srv" = true) ∧
    (∀ p ∈ ([("a", ⟨"1.1.1.1", "1.1.1.1"⟩),
             ("c", ⟨"9.9.9.9", "9.9.9.9"⟩)] :
        List (String × FirewallRuleProperties)), validSeg p.1 = true) ∧
    (∀ d ∈ rulesToDelete
        (buildFirewallRulesMap (NewFirewallRuleID "sub" "rg" "srv")
          [⟨"a", "1.1.1.1", "1.1.1.1"⟩])
        ([("a", (⟨"1.1.1.1", "1.1.1.1"⟩ : FirewallRuleProperties)),
          ("c", ⟨"9.9.9.9", "9.9.9.9"⟩)].map (mkRemoteRule "sub" "rg" "srv")),
      d.firewallRuleName ∉ ([⟨"a", "1.1.1.1", "1.1.1.1"⟩] : List Rule).map Rule.name) :=
  ⟨by decide, by decide, by decide, by decide,
    c7_diff_delete_names_disjoint "sub" "rg" "srv" _ _
      (by decide) (by decide) (by decide) (by decide)⟩

/-- Claim C1 (the code violates it): dispatch N = 2 items whose first collected
result is an error.  The collecting loop (`for chanErr := range errs`) returns
on that first error: at the return point only 1 of the 2 results has been
collected, and after the still-running goroutines take every step available to
them, goroutine 1 stays blocked forever sending on `errs`, so under every
continuation of the schedule the collected count stays 1 and at least one
concurrency permit remains held — contradicting "all N results collected and
zero permits held". -/
theorem c1_executor_early_return_leaks_permits :
    (execRun [some (GoErr.remoteOpFailed "boom"), none]
        [ExecAction.acquire 0, ExecAction.acquire 1, ExecAction.finishOp 0,
         ExecAction.finishOp 1, ExecAction.send 0, ExecAction.release 0]).main
      = MainPC.returned (some (GoErr.remoteOpFailed "boom"))
    ∧ (execRun [some (GoErr.remoteOpFailed "boom"), none]
        [ExecAction.acquire 0, ExecAction.acquire 1, ExecAction.finishOp 0,
         ExecAction.finishOp 1, ExecAction.send 0, ExecAction.release 0]).collected = 1
    ∧ (execRun [some (GoErr.remoteOpFailed "boom"), none]
        [ExecAction.acquire 0, ExecAction.acquire 1, ExecAction.finishOp 0,
         ExecAction.finishOp 1, ExecAction.send 0, ExecAction.release 0]).sem = 1
    ∧ ([some (GoErr.remoteOpFailed "boom"), none] : List (Option GoErr)).length = 2
    ∧ ∀ (extra : List ExecAction),
        (execRun [some (GoErr.remoteOpFailed "boom"), none]
          ([ExecAction.acquire 0, ExecAction.acquire 1, ExecAction.finishOp 0,
            ExecAction.finishOp 1, ExecAction.send 0, ExecAction.release 0]
            ++ extra)).collected = 1
        ∧ 1 ≤ (execRun [some (GoErr.remoteOpFailed "boom"), none]
            ([ExecAction.acquire 0, ExecAction.acquire 1, ExecAction.finishOp 0,
              ExecAction.finishOp 1, ExecAction.send 0, ExecAction.release 0]
              ++ extra)).sem := by
  refine ⟨by decide, by decide, by decide, by decide, ?_⟩
  intro extra
  have hmain : (execRun [some (GoErr.remoteOpFailed "boom"), none]
      [ExecAction.acquire 0, ExecAction.acquire 1, ExecAction.finishOp 0,
       ExecAction.finishOp 1, ExecAction.send 0, ExecAction.release 0]).main
      = MainPC.returned (some (GoErr.remoteOpFailed "boom")) := by decide
  have hcoll : (execRun [some (GoErr.remoteOpFailed "boom"), none]
      [ExecAction.acquire 0, ExecAction.acquire 1, ExecAction.finishOp 0,
       ExecAction.finishOp 1, ExecAction.send 0, ExecAction.release 0]).collected
      = 1 := by decide
  have hstage : (execRun [some (GoErr.remoteOpFailed "boom"), none]
      [ExecAction.acquire 0, ExecAction.acquire 1, ExecAction.finishOp 0,
       ExecAction.finishOp 1, ExecAction.send 0, ExecAction.release 0]).stages[1]?
      = some Stage.sendReady := by decide
  have hne : (execRun [some (GoErr.remoteOpFailed "boom"), none]
      [ExecAction.acquire 0, ExecAction.acquire 1, ExecAction.finishOp 0,
       ExecAction.finishOp 1, ExecAction.send 0, ExecAction.release 0]).main
      ≠ MainPC.collecting := by rw [hmain]; intro hcon; cases hcon
  have hfold : execRun [some (GoErr.remoteOpFailed "boom"), none]
      ([ExecAction.acquire 0, ExecAction.acquire 1, ExecAction.finishOp 0,
        ExecAction.finishOp 1, ExecAction.send 0, ExecAction.release 0] ++ extra)
      = extra.foldl (execStep [some (GoErr.remoteOpFailed "boom"), none])
          (execRun [some (GoErr.remoteOpFailed "boom"), none]
            [ExecAction.acquire 0, ExecAction.acquire 1, ExecAction.finishOp 0,
             ExecAction.finishOp 1, ExecAction.send 0, ExecAction.release 0]) := by
    unfold execRun
    rw [List.foldl_append]
  obtain ⟨hm, hc, hs⟩ := execFold_stuck [some (GoErr.remoteOpFailed "boom"), none]
    extra _ hne
  constructor
  · rw [hfold, hc, hcoll]
  · have inv := execRun_inv [some (GoErr.remoteOpFailed "boom"), none]
      ([ExecAction.acquire 0, ExecAction.acquire 1, ExecAction.finishOp 0,
        ExecAction.finishOp 1, ExecAction.send 0, ExecAction.release 0] ++ extra)
    have hstage2 : (execRun [some (GoErr.remoteOpFailed "boom"), none]
        ([ExecAction.acquire 0, ExecAction.acquire 1, ExecAction.finishOp 0,
          ExecAction.finishOp 1, ExecAction.send 0, ExecAction.release 0]
          ++ extra)).stages[1]? = some Stage.sendReady := by
      rw [hfold]
      exact hs 1 hstage
    have hmem : Stage.sendReady ∈ (execRun [some (GoErr.remoteOpFailed "boom"), none]
        ([ExecAction.acquire 0, ExecAction.acquire 1, ExecAction.finishOp 0,
          ExecAction.finishOp 1, ExecAction.send 0, ExecAction.release 0]
          ++ extra)).stages := List.getElem?_mem hstage2
    have hpos : 0 < (execRun [some (GoErr.remoteOpFailed "boom"), none]
        ([ExecAction.acquire 0, ExecAction.acquire 1, ExecAction.finishOp 0,
          ExecAction.finishOp 1, ExecAction.send 0, ExecAction.release 0]
          ++ extra)).stages.countP permitHeld :=
      List.countP_pos_iff.mpr ⟨Stage.sendReady, hmem, rfl⟩
    rw [inv.semEq]
    omega

/-- Claim C2: the upsert phase of `Update` is dispatched only from the branch
in which the delete phase's collecting loop has exited with `nil`; in that
state every delete result has been collected (as many results as dispatched
deletions) and every delete outcome was `nil` — so the upsert phase begins
only after the delete phase's aggregate result is fully known, and a failing
delete prevents any upsert from being dispatched. -/
theorem c2_upsert_only_after_delete_drain
    (accountSub : String) (model : FlexibleServerFirewallRulesModel)
    (changedKeys : List String) (listResult : Except GoErr (List FirewallRule))
    (deleteRes : FirewallRuleId → Option GoErr)
    (upsertRes : FirewallRuleId → FirewallRule → Option GoErr)
    (dSched uSched : List ExecAction)
    (h : (updateRun accountSub model changedKeys listResult deleteRes upsertRes
        dSched uSched).upsertStarted = true) :
    (updateRun accountSub model changedKeys listResult deleteRes upsertRes
        dSched uSched).deleteFinal.collected
      = (updateRun accountSub model changedKeys listResult deleteRes upsertRes
          dSched uSched).deleteDispatched.length
    ∧ ∀ fid ∈ (updateRun accountSub model changedKeys listResult deleteRes upsertRes
        dSched uSched).deleteDispatched, deleteRes fid = none := by
  cases hp : parseFlexibleServerID model.serverID with
  | none => simp [updateRun, hp] at h
  | some id =>
    by_cases hch : hasChange changedKeys "firewall_rule" = true
    · cases listResult with
      | error e => simp [updateRun, hp, hch] at h
      | ok cur =>
        simp only [updateRun, hp, hch, if_true] at h ⊢
        cases hdm : (execRun ((rulesToDelete
            (buildFirewallRulesMap (updateFirewallRuleID accountSub id) model.rule)
            cur).map deleteRes) dSched).main with
        | collecting => rw [hdm] at h; simp at h
        | returned r =>
          cases r with
          | some e => rw [hdm] at h; simp at h
          | none =>
            simp only [hdm] at h ⊢
            obtain ⟨hcol, hall⟩ := execRun_returned_none _ dSched hdm
            refine ⟨?_, ?_⟩
            · rw [hcol, List.length_map]
            · intro fid hfid
              exact hall _ (List.mem_map_of_mem deleteRes hfid)
    · simp [updateRun, hp, hch] at h

/-- Claim C2, witness: a reconciliation with an empty delete phase reaching
the upsert phase. -/
theorem c2_upsert_only_after_delete_drain_witness :
    ((updateRun "sub" ⟨(FlexibleServerId.mk "sub" "rg" "srv").ID,
        [⟨"a", "1.2.3.4", "1.2.3.4"⟩]⟩ ["firewall_rule"] (.ok [])
        (fun _ => none) (fun _ _ => none)
        [ExecAction.closeCh, ExecAction.recvClosed] []).upsertStarted = true)
    ∧ ((updateRun "sub" ⟨(FlexibleServerId.mk "sub" "rg" "srv").ID,
        [⟨"a", "1.2.3.4", "1.2.3.4"⟩]⟩ ["firewall_rule"] (.ok [])
        (fun _ => none) (fun _ _ => none)
        [ExecAction.closeCh, ExecAction.recvClosed] []).deleteFinal.collected
      = (updateRun "sub" ⟨(FlexibleServerId.mk "sub" "rg" "srv").ID,
          [⟨"a", "1.2.3.4", "1.2.3.4"⟩]⟩ ["firewall_rule"] (.ok [])
          (fun _ => none) (fun _ _ => none)
          [ExecAction.closeCh, ExecAction.recvClosed] []).deleteDispatched.length
    ∧ ∀ fid ∈ (updateRun "sub" ⟨(FlexibleServerId.mk "sub" "rg" "srv").ID,
          [⟨"a", "1.2.3.4", "1.2.3.4"⟩]⟩ ["firewall_rule"] (.ok [])
          (fun _ => none) (fun _ _ => none)
          [ExecAction.closeCh, ExecAction.recvClosed] []).deleteDispatched,
        (fun (_ : FirewallRuleId) => (none : Option GoErr)) fid = none) :=
  ⟨by decide,
    c2_upsert_only_after_delete_drain "sub" _ ["firewall_rule"] (.ok [])
      (fun _ => none) (fun _ _ => none)
      [ExecAction.closeCh, ExecAction.recvClosed] [] (by decide)⟩

/-- Claim C4 (the code violates it): `Update` gates the entire reconciliation
on `HasChange("firewall_rule")` (source line 227), but the schema's only
top-level keys are `server_id` and `rule` (source lines 44-80) and the plugin
SDK records changes only for schema keys.  Hence for every change set drawn
from the schema — in particular a change to `rule` — the gate is false and
`Update` returns nil without listing, diffing, or dispatching any delete or
upsert, instead of executing the reconciliation sequence the claim
describes. -/
theorem c4_update_gate_never_fires
    (accountSub : String) (model : FlexibleServerFirewallRulesModel)
    (changedKeys : List String) (listResult : Except GoErr (List FirewallRule))
    (deleteRes : FirewallRuleId → Option GoErr)
    (upsertRes : FirewallRuleId → FirewallRule → Option GoErr)
    (dSched uSched : List ExecAction) (id : FlexibleServerId)
    (hp : parseFlexibleServerID model.serverID = some id)
    (hsub : ∀ k ∈ changedKeys, k ∈ schemaTopLevelKeys) :
    updateRun accountSub model changedKeys listResult deleteRes upsertRes
        dSched uSched
      = { result := .returned none, deleteDispatched := [],
          upsertDispatched := [], upsertStarted := false,
          deleteFinal := execInit 0 } := by
  have hch : ¬ (hasChange changedKeys "firewall_rule" = true) := by
    unfold hasChange
    intro hcon
    have hmem := hsub "firewall_rule" ((contains_iff_mem _ _).mp hcon)
    simp [schemaTopLevelKeys] at hmem
  simp [updateRun, hp, hch]

/-- Claim C4, witness: a changed `rule` attribute with a genuinely different
remote state still produces no remote operation. -/
theorem c4_update_gate_never_fires_witness :
    (parseFlexibleServerID
        (⟨(FlexibleServerId.mk "sub" "rg" "srv").ID, [⟨"a", "1.1.1.1", "1.1.1.1"⟩]⟩ :
          FlexibleServerFirewallRulesModel).serverID
      = some (FlexibleServerId.mk "sub" "rg" "srv")) ∧
    (∀ k ∈ ["rule"], k ∈ schemaTopLevelKeys) ∧
    (updateRun "sub" ⟨(FlexibleServerId.mk "sub" "rg" "srv").ID,
        [⟨"a", "1.1.1.1", "1.1.1.1"⟩]⟩ ["rule"]
        (.ok [mkRemoteRule "sub" "rg" "srv" ("c", ⟨"9.9.9.9", "9.9.9.9"⟩)])
        (fun _ => none) (fun _ _ => none) [] []
      = { result := .returned none, deleteDispatched := [],
          upsertDispatched := [], upsertStarted := false,
          deleteFinal := execInit 0 }) :=
  ⟨by decide, by decide,
    c4_update_gate_never_fires "sub"
      ⟨(FlexibleServerId.mk "sub" "rg" "srv").ID, [⟨"a", "1.1.1.1", "1.1.1.1"⟩]⟩
      ["rule"]
      (.ok [mkRemoteRule "sub" "rg" "srv" ("c", ⟨"9.9.9.9", "9.9.9.9"⟩)])
      (fun _ => none) (fun _ _ => none) [] [] (FlexibleServerId.mk "sub" "rg" "srv")
      (by decide) (by decide)⟩

/-- Claim C8: for a phase over more items than `maxConcurrency`, every
schedule keeps the number of in-flight remote operations at or below
`maxConcurrency`, and the peak — the largest in-flight count any schedule
can reach — equals `min N maxConcurrency`. -/
theorem c8_executor_concurrency_bound (outcomes : List (Option GoErr))
    (hN : maxConcurrency < outcomes.length) :
    (∀ sched, inFlight (execRun outcomes sched) ≤ maxConcurrency) ∧
    (∃ sched, inFlight (execRun outcomes sched)
      = min outcomes.length maxConcurrency) := by
  refine ⟨fun sched => inFlight_le_cap outcomes sched,
    ⟨acquireSched maxConcurrency, ?_⟩⟩
  rw [inFlight_acquireSched outcomes maxConcurrency (Nat.le_of_lt hN)
    (Nat.le_refl _)]
  omega

/-- Claim C8, witness at N = 101 items. -/
theorem c8_executor_concurrency_bound_witness :
    maxConcurrency < (List.replicate 101 (none : Option GoErr)).length ∧
    ((∀ sched, inFlight (execRun (List.replicate 101 (none : Option GoErr)) sched)
        ≤ maxConcurrency) ∧
     (∃ sched, inFlight (execRun (List.replicate 101 (none : Option GoErr)) sched)
        = min (List.replicate 101 (none : Option GoErr)).length maxConcurrency)) :=
  ⟨by decide, c8_executor_concurrency_bound _ (by decide)⟩

end AzureRM
